import Mathlib

/-!
Verification of the GitHub-repository analysis route of the gitready
repository (src/src/app/api/analyze/repos/route.ts, second route version)
and of src/services/api.ts.

Strings are modelled as lists of characters (JavaScript strings are
sequences of UTF-16 units; all constants involved are ASCII).  JavaScript
string methods used by the source (split, trim, replace of space or tab
runs, includes, endsWith, toLowerCase, substring from lastIndexOf)
are embedded as executable functions on character lists.
-/

/-- The ASCII part of the whitespace set recognised by the JavaScript
String.prototype.trim method. -/
def isJsWs (c : Char) : Bool :=
  c = ' ' || c = '\t' || c = '\n' || c = '\r' || c = '\x0b' || c = '\x0c'

/-- Characters matched by the regular expression class with space and tab,
used by the compression replace call in the route. -/
def isSpaceTab (c : Char) : Bool :=
  c = ' ' || c = '\t'

/-- Worker for the replace of space and tab runs: the flag records whether
the previous character belonged to a run that already emitted its single
space. -/
def collapseWsAux : Bool → List Char → List Char
  | _, [] => []
  | inRun, c :: rest =>
    if isSpaceTab c then
      if inRun then collapseWsAux true rest
      else ' ' :: collapseWsAux true rest
    else c :: collapseWsAux false rest

/-- Embedding of the JavaScript replace of every maximal run of spaces and
tabs by one single space. -/
def collapseWs (l : List Char) : List Char :=
  collapseWsAux false l

/-- Embedding of the JavaScript trim method (ASCII whitespace). -/
def jsTrim (l : List Char) : List Char :=
  ((l.dropWhile isJsWs).reverse.dropWhile isJsWs).reverse

/-- Embedding of the JavaScript split method on a one-character separator:
splitting the empty string yields one empty piece. -/
def splitOnChar (sep : Char) : List Char → List (List Char)
  | [] => [[]]
  | c :: rest =>
    if c = sep then [] :: splitOnChar sep rest
    else
      match splitOnChar sep rest with
      | [] => [[c]]
      | l :: ls => (c :: l) :: ls

/-- The line decomposition used by compressCodeWithLineMapping:
code.split on the newline character. -/
def splitLines (code : List Char) : List (List Char) :=
  splitOnChar '\n' code

/-- A line is skipped by the compression loop when its trim is empty. -/
def isBlankLine (l : List Char) : Bool :=
  (jsTrim l).isEmpty

/-- The per-line transformation of the compression loop: collapse runs of
spaces and tabs to one space, then trim. -/
def compressLine (l : List Char) : List Char :=
  jsTrim (collapseWs l)

/-- Joining of the compressed lines with newlines. -/
def joinLines (ls : List (List Char)) : List Char :=
  List.intercalate ['\n'] ls

/-- The loop of compressCodeWithLineMapping (route.ts lines 328 to 339):
walks the lines with their original index, skips blank lines, pushes the
compressed form of each other line and records its original index.  The
record lineMap of the source has the consecutive keys 0, 1, 2, ... so it
is modelled as the list of its values in key order. -/
def compressLoop : List (List Char) → Nat → List (List Char) × List Nat
  | [], _ => ([], [])
  | l :: rest, i =>
    if isBlankLine l then compressLoop rest (i + 1)
    else
      let r := compressLoop rest (i + 1)
      (compressLine l :: r.1, i :: r.2)

/-- Embedding of compressCodeWithLineMapping (route.ts lines 317 to 345). -/
def compressCodeWithLineMapping (code : List Char) : List Char × List Nat :=
  let r := compressLoop (splitLines code) 0
  (joinLines r.1, r.2)

/-- Embedding of countTokens (route.ts lines 289 to 294): the ceiling of a
quarter of the length. -/
def countTokens (text : List Char) : Nat :=
  (text.length + 3) / 4

/-- The annotation remapping step of the route (lines 563 to 573): a lookup
of the annotation line in the stored line map, plus one when the key is
present, the unchanged line number when it is not. -/
def remapLine (lineMap : List Nat) (line : Nat) : Nat :=
  match lineMap.get? line with
  | some o => o + 1
  | none => line

/-- ASCII embedding of the JavaScript toLowerCase on one character. -/
def lowerChar (c : Char) : Char :=
  match c with
  | 'A' => 'a' | 'B' => 'b' | 'C' => 'c' | 'D' => 'd' | 'E' => 'e' | 'F' => 'f'
  | 'G' => 'g' | 'H' => 'h' | 'I' => 'i' | 'J' => 'j' | 'K' => 'k' | 'L' => 'l'
  | 'M' => 'm' | 'N' => 'n' | 'O' => 'o' | 'P' => 'p' | 'Q' => 'q' | 'R' => 'r'
  | 'S' => 's' | 'T' => 't' | 'U' => 'u' | 'V' => 'v' | 'W' => 'w' | 'X' => 'x'
  | 'Y' => 'y' | 'Z' => 'z'
  | c => c

/-- ASCII embedding of the JavaScript toLowerCase method. -/
def jsToLower (l : List Char) : List Char :=
  l.map lowerChar

/-- Does the list start with the given pattern. -/
def listStartsWith : List Char → List Char → Bool
  | _, [] => true
  | [], _ :: _ => false
  | c :: l, p :: ps => c = p && listStartsWith l ps

/-- Embedding of the JavaScript includes method on strings: does the
pattern occur contiguously in the list. -/
def hasSub : List Char → List Char → Bool
  | [], pat => pat.isEmpty
  | c :: rest, pat => listStartsWith (c :: rest) pat || hasSub rest pat

/-- Embedding of the JavaScript endsWith method. -/
def listEndsWith (l pat : List Char) : Bool :=
  listStartsWith l.reverse pat.reverse

/-- The suffix of a list starting at the last occurrence of the separator,
when there is one. -/
def suffixFromLast (sep : Char) : List Char → Option (List Char)
  | [] => none
  | c :: rest =>
    match suffixFromLast sep rest with
    | some s => some s
    | none => if c = sep then some (c :: rest) else none

/-- Embedding of file.substring starting at the last dot as used by
filterImportantFiles: the whole string when there is no dot, because a
lastIndexOf result of minus one makes substring start at zero. -/
def getExtension (file : List Char) : List Char :=
  match suffixFromLast '.' file with
  | some s => s
  | none => file

/-- The extension list of filterImportantFiles (route.ts lines 350 to 353). -/
def importantExtensions : List (List Char) :=
  [".js".toList, ".jsx".toList, ".ts".toList, ".tsx".toList, ".py".toList,
   ".rb".toList, ".go".toList, ".java".toList, ".php".toList,
   ".c".toList, ".cpp".toList, ".h".toList, ".cs".toList]

/-- The exclusion pattern list of filterImportantFiles (route.ts lines 356
to 362), kept verbatim, including the uppercase README and Dockerfile. -/
def excludePatterns : List (List Char) :=
  ["test".toList, "spec".toList, ".test.".toList, ".spec.".toList,
   ".css".toList, ".scss".toList, ".html".toList, ".md".toList, ".json".toList,
   "README".toList, "package.json".toList, "package-lock.json".toList,
   "yarn.lock".toList, ".gitignore".toList, ".eslintrc".toList,
   ".prettierrc".toList, "tsconfig.json".toList, "jest.config".toList,
   "cypress.config".toList, ".env".toList, "Dockerfile".toList]

/-- Embedding of filterImportantFiles (route.ts lines 347 to 375): keep the
files whose lowercased extension is in the important list, then drop the
files whose lowercased path contains an exclusion pattern. -/
def filterImportantFiles (files : List (List Char)) : List (List Char) :=
  let codeFiles := files.filter (fun file =>
    importantExtensions.contains (jsToLower (getExtension file)))
  codeFiles.filter (fun file =>
    !(excludePatterns.any (fun pat => hasSub (jsToLower file) pat)))

/-- The two parts of a parsed URL that extractRepoInfo reads.  The URL
constructor of the JavaScript runtime is treated as an oracle producing
such a record, or failing. -/
structure URLRec where
  hostname : List Char
  pathname : List Char

/-- Embedding of extractRepoInfo (route.ts lines 221 to 240): parse the
URL, require github.com inside the hostname, split the pathname on slashes
keeping the nonempty parts, require at least two parts and return the
first two as owner and repo.  Every failure is collapsed by the catch into
one thrown Invalid GitHub URL error, modelled as none. -/
def extractRepoInfo (parseURL : List Char → Option URLRec) (url : List Char) :
    Option (List Char × List Char) :=
  match parseURL url with
  | none => none
  | some u =>
    if hasSub u.hostname ("github.com".toList) then
      match (splitOnChar '/' u.pathname).filter (fun s => !s.isEmpty) with
      | a :: b :: _ => some (a, b)
      | _ => none
    else none

/-- Embedding of getFileContent (route.ts lines 269 to 287): the fetched
content on success, the empty string when the fetch throws. -/
def getFileContent (fetchResult : Except (List Char) (List Char)) : List Char :=
  match fetchResult with
  | Except.ok c => c
  | Except.error _ => []

/-- An annotation of the model response: a line number and a comment. -/
structure Annot where
  line : Nat
  comment : List Char
deriving DecidableEq

/-- A code item of the model response before processing. -/
structure CodeItemIn where
  filename : List Char
  language : Option (List Char)
  annotations : Option (List Annot)
deriving DecidableEq

/-- A section of the model response before processing. -/
structure SectionIn where
  title : List Char
  content : List Char
  code : Option (List CodeItemIn)
deriving DecidableEq

/-- A code item after the route merged the original file back in.  The
content field is none exactly when no fetched file matched the filename,
in which case the item passes through unchanged. -/
structure CodeItemOut where
  filename : List Char
  language : Option (List Char)
  annotations : Option (List Annot)
  content : Option (List Char)
deriving DecidableEq

/-- A section of the response body sent to the client. -/
structure SectionOut where
  title : List Char
  content : List Char
  code : Option (List CodeItemOut)
deriving DecidableEq

/-- One entry of the fileContents array of the route (lines 406 to 418):
the path, the original content, its compressed form and the line map. -/
structure FileRec where
  path : List Char
  content : List Char
  compressed : List Char
  lineMap : List Nat
deriving DecidableEq

def mkFileRec (path : List Char) (content : List Char) : FileRec :=
  { path := path, content := content,
    compressed := (compressCodeWithLineMapping content).1,
    lineMap := (compressCodeWithLineMapping content).2 }

/-- Steps 4 to 6 of the route: take the first seven important files, fetch
each and compress it, and keep the files with nonempty content. -/
def buildValidFiles (fetchR : List Char → Except (List Char) (List Char))
    (importantFiles : List (List Char)) : List FileRec :=
  ((importantFiles.take 7).map (fun p => mkFileRec p (getFileContent (fetchR p)))).filter
    (fun f => !f.content.isEmpty)

def sumTokens (files : List FileRec) : Nat :=
  (files.map (fun f => countTokens f.compressed)).sum

/-- The limit of the budgeting step: the 200000 token limit minus the
20000 token buffer (route.ts lines 424 to 426). -/
def MAX_AVAILABLE_TOKENS : Nat := 200000 - 20000

/-- Stable insertion used to model the sort of validFiles by descending
compressed token count (route.ts line 439). -/
def insertDesc (f : FileRec) : List FileRec → List FileRec
  | [] => [f]
  | g :: rest =>
    if countTokens g.compressed ≤ countTokens f.compressed then f :: g :: rest
    else g :: insertDesc f rest

/-- Stable sort of the valid files by descending compressed token count. -/
def sortByTokensDesc : List FileRec → List FileRec
  | [] => []
  | f :: rest => insertDesc f (sortByTokensDesc rest)

/-- The removal loop of the budgeting step (route.ts lines 442 to 448):
while the total exceeds the limit and more than three files remain, pop
the last file and subtract its token count. -/
def budgetLoop (files : List FileRec) (total : Nat) : List FileRec × Nat :=
  if _h : MAX_AVAILABLE_TOKENS < total ∧ 3 < files.length then
    match files.getLast? with
    | some removed => budgetLoop files.dropLast (total - countTokens removed.compressed)
    | none => (files, total)
  else (files, total)
termination_by files.length
decreasing_by simp [List.length_dropLast]; omega

/-- The whole budgeting step (route.ts lines 429 to 451): sum the token
counts of the compressed contents; when the sum exceeds the limit, sort
by descending size and run the removal loop. -/
def budgetFiles (validFiles : List FileRec) : List FileRec × Nat :=
  if MAX_AVAILABLE_TOKENS < sumTokens validFiles then
    budgetLoop (sortByTokensDesc validFiles) (sumTokens validFiles)
  else (validFiles, sumTokens validFiles)

/-- A response body: either the error object or a JSON array of sections. -/
inductive RespBody where
  | errObj (msg : List Char)
  | sections (ss : List SectionOut)
deriving DecidableEq

def RespBody.isErr : RespBody → Bool
  | RespBody.errObj _ => true
  | RespBody.sections _ => false

/-- A response of the route: HTTP status and JSON body.  NextResponse.json
without an explicit status sends 200. -/
structure HttpResponse where
  status : Nat
  body : RespBody
deriving DecidableEq

/-- The extension-to-language table of getLanguageFromFilename. -/
def langTable : List (List Char × List Char) :=
  [("js".toList, "javascript".toList), ("jsx".toList, "jsx".toList),
   ("ts".toList, "typescript".toList), ("tsx".toList, "tsx".toList),
   ("py".toList, "python".toList), ("rb".toList, "ruby".toList),
   ("go".toList, "go".toList), ("java".toList, "java".toList),
   ("php".toList, "php".toList), ("c".toList, "c".toList),
   ("cpp".toList, "cpp".toList), ("cs".toList, "csharp".toList),
   ("html".toList, "html".toList), ("css".toList, "css".toList),
   ("json".toList, "json".toList), ("md".toList, "markdown".toList),
   ("yml".toList, "yaml".toList), ("yaml".toList, "yaml".toList),
   ("sh".toList, "bash".toList), ("rs".toList, "rust".toList)]

/-- Embedding of getLanguageFromFilename (route.ts lines 665 to 692):
split the filename on dots, take the last piece, lowercase it and look it
up, with plaintext as the default and the falsy check on an empty
extension. -/
def getLanguageFromFilename (filename : List Char) : List Char :=
  match (splitOnChar '.' filename).getLast? with
  | none => "plaintext".toList
  | some ext =>
    let e := jsToLower ext
    if e.isEmpty then "plaintext".toList
    else
      match langTable.lookup e with
      | some lang => lang
      | none => "plaintext".toList

/-- The file matching of the processing step (route.ts lines 557 to 558):
the first valid file whose path equals the filename of the code item or
ends with it. -/
def findMatchingFile (validFiles : List FileRec) (filename : List Char) : Option FileRec :=
  validFiles.find? (fun f => f.path == filename || listEndsWith f.path filename)

def remapAnnots (lineMap : List Nat) (anns : List Annot) : List Annot :=
  anns.map (fun a => { a with line := remapLine lineMap a.line })

/-- The per-item processing of the route (lines 555 to 584): an item with
no matching file passes through unchanged; for a matched file the
annotation lines are remapped through the line map, the original content
is attached and a missing or empty language is computed from the path. -/
def processCodeItem (validFiles : List FileRec) (ci : CodeItemIn) : CodeItemOut :=
  match findMatchingFile validFiles ci.filename with
  | none =>
    { filename := ci.filename, language := ci.language,
      annotations := ci.annotations, content := none }
  | some f =>
    { filename := ci.filename,
      language := some (match ci.language with
        | some l => if l.isEmpty then getLanguageFromFilename f.path else l
        | none => getLanguageFromFilename f.path),
      annotations := (ci.annotations).map (remapAnnots f.lineMap),
      content := some f.content }

def processSection (validFiles : List FileRec) (s : SectionIn) : SectionOut :=
  { title := s.title, content := s.content,
    code := (s.code).map (fun items => items.map (processCodeItem validFiles)) }

def processSections (validFiles : List FileRec) (ss : List SectionIn) : List SectionOut :=
  ss.map (processSection validFiles)

/-- The JavaScript lastIndexOf of a character, as an optional index. -/
def lastIdxOfChar (c : Char) (l : List Char) : Option Nat :=
  (List.findIdx? (fun d => d = c) l.reverse).map (fun i => l.length - 1 - i)

/-- The best-effort JSON extraction of the route (lines 596 to 600): the
substring from the first opening bracket to the last closing bracket, when
the first index is nonnegative and the end exceeds the start. -/
def extractJsonRange (t : List Char) : Option (List Char) :=
  match List.findIdx? (fun d => d = '[') t, lastIdxOfChar ']' t with
  | some s, some e0 => if s ≤ e0 then some ((t.take (e0 + 1)).drop s) else none
  | some _, none => none
  | none, _ => none

/-- The fallback body returned when all parsing fails (route.ts lines 647
to 653). -/
def parsingErrorSections : List SectionOut :=
  [{ title := "Parsing Error".toList,
     content := ("Unable to parse the AI analysis. This sometimes happens with complex codebases. Please try again or try with a different repository.".toList),
     code := none }]

/-- Step 10 of the route (lines 546 to 654): trim the model text and parse
it; on success process the sections; on failure try the bracket substring;
when that also fails answer 200 with the Parsing Error section.  The
JSON.parse of the runtime is an oracle; a run in which the parsed value
breaks the later mapping with a thrown type error lands in the same catch
as a parse failure and is covered by a none result of the oracle. -/
def parseStage (jsonParse : List Char → Option (List SectionIn))
    (validFiles : List FileRec) (text : List Char) : HttpResponse :=
  let t := jsTrim text
  match jsonParse t with
  | some sections =>
    { status := 200, body := RespBody.sections (processSections validFiles sections) }
  | none =>
    match extractJsonRange t with
    | some sub =>
      match jsonParse sub with
      | some sections =>
        { status := 200, body := RespBody.sections (processSections validFiles sections) }
      | none => { status := 200, body := RespBody.sections parsingErrorSections }
    | none => { status := 200, body := RespBody.sections parsingErrorSections }

/-- What the route asked of the outside world during one request. -/
structure Effects where
  calledTree : Bool
  fetchedPaths : List (List Char)
  calledClaude : Bool
deriving DecidableEq

def noEffects : Effects :=
  { calledTree := false, fetchedPaths := [], calledClaude := false }

/-- The outside world of one request: the URL constructor, the tree
listing, the per-path content fetch, the model call and JSON.parse. -/
structure RouteOracle where
  parseURL : List Char → Option URLRec
  tree : Option (List (List Char))
  fetchR : List Char → Except (List Char) (List Char)
  claude : Except (List Char) (Option (List Char))
  jsonParse : List Char → Option (List SectionIn)

/-- Embedding of the POST handler of route.ts (lines 377 to 662), with its
outside calls replaced by the oracle and an effect record of which calls
were made.  The urlField argument is the url field of the request body,
none when absent; a missing or empty url is falsy and answers 400.  Every
error thrown below the try lands in the catch (lines 655 to 661) as a 500
with the error message. -/
def POSTmodel (o : RouteOracle) (urlField : Option (List Char)) : HttpResponse × Effects :=
  match urlField with
  | none => ({ status := 400, body := RespBody.errObj ("URL is required".toList) }, noEffects)
  | some url =>
    if url.isEmpty then
      ({ status := 400, body := RespBody.errObj ("URL is required".toList) }, noEffects)
    else
      match extractRepoInfo o.parseURL url with
      | none => ({ status := 500, body := RespBody.errObj ("Invalid GitHub URL".toList) }, noEffects)
      | some _ownerRepo =>
        match o.tree with
        | none =>
          ({ status := 500,
             body := RespBody.errObj ("Failed to fetch repository structure".toList) },
           { calledTree := true, fetchedPaths := [], calledClaude := false })
        | some allFiles =>
          let importantFiles := filterImportantFiles allFiles
          if importantFiles.length < 3 then
            ({ status := 400,
               body := RespBody.errObj
                 ("Repository must have at least 3 important code files for analysis".toList) },
             { calledTree := true, fetchedPaths := [], calledClaude := false })
          else
            let validFiles := buildValidFiles o.fetchR importantFiles
            let finalFiles := (budgetFiles validFiles).1
            let eff : Effects :=
              { calledTree := true, fetchedPaths := importantFiles.take 7, calledClaude := true }
            match o.claude with
            | Except.error msg => ({ status := 500, body := RespBody.errObj msg }, eff)
            | Except.ok none =>
              ({ status := 500,
                 body := RespBody.errObj ("Unexpected response format from Claude".toList) }, eff)
            | Except.ok (some text) => (parseStage o.jsonParse finalFiles text, eff)

def c7oracle : RouteOracle :=
  { parseURL := fun _ => some { hostname := "gitlab.com".toList, pathname := "/o/r".toList },
    tree := none,
    fetchR := fun _ => Except.ok [],
    claude := Except.ok none,
    jsonParse := fun _ => none }

def c6oracle : RouteOracle :=
  { parseURL := fun _ => some { hostname := "github.com".toList, pathname := "/o/r".toList },
    tree := some [],
    fetchR := fun _ => Except.ok [],
    claude := Except.ok none,
    jsonParse := fun _ => none }

def c9fetch (p : List Char) : Except (List Char) (List Char) :=
  if p = "a.ts".toList then Except.error ("boom".toList) else Except.ok ("x".toList)

def c3oracle : RouteOracle :=
  { parseURL := fun _ => some { hostname := "github.com".toList, pathname := "/o/r".toList },
    tree := some ["a.ts".toList, "b.ts".toList, "c.ts".toList],
    fetchR := fun _ => Except.ok ("x".toList),
    claude := Except.ok (some ("hello".toList)),
    jsonParse := fun _ => none }

/-- The section shape of src/services/api.ts (CodeWalkthroughSection);
the code items are borrowed from the processed route items, the field of
interest here being the optional code array itself. -/
structure CodeWalkthroughSection where
  title : List Char
  content : List Char
  code : Option (List CodeItemOut)
deriving DecidableEq

/-- Embedding of analyzeDocumentation (src/services/api.ts lines 35 to
50): no network oracle appears among its inputs; it returns the one fixed
section regardless of the url.  The simulated 500 millisecond delay is
pure timing and has no functional content. -/
def analyzeDocumentation (_url : List Char) : List CodeWalkthroughSection :=
  [{ title := "Documentation Analysis Unavailable".toList,
     content := ("The documentation analysis feature has been disabled in this version. Please use GitHub repository analysis instead.".toList),
     code := none }]

def fileC5 : FileRec :=
  { path := "a.ts".toList, content := List.replicate 720004 'a',
    compressed := List.replicate 720004 'a', lineMap := [0] }

def fetchC5 (p : List Char) : Except (List Char) (List Char) :=
  if p = "a.ts".toList then Except.ok (List.replicate 720004 'a')
  else Except.error ("fail".toList)

def treeC5 : List (List Char) := ["a.ts".toList, "b.ts".toList, "c.ts".toList]

def fileC4w : FileRec := mkFileRec ("a.ts".toList) ("x\ny".toList)

def ciC4w : CodeItemIn :=
  { filename := "a.ts".toList, language := none,
    annotations := some [{ line := 0, comment := "c".toList }] }

def claudeC4 : List Char :=
  "[\x7b\"title\":\"T\",\"content\":\"C\",\"code\":[\x7b\"filename\":\"a.ts\",\"language\":\"ts\",\"annotations\":[\x7b\"line\":999,\"comment\":\"hi\"\x7d]\x7d]\x7d]".toList

def secC4 : SectionIn :=
  { title := "T".toList, content := "C".toList,
    code := some [{ filename := "a.ts".toList, language := some ("ts".toList),
                    annotations := some [{ line := 999, comment := "hi".toList }] }] }

def c4oracle : RouteOracle :=
  { parseURL := fun _ => some { hostname := "github.com".toList, pathname := "/o/r".toList },
    tree := some ["a.ts".toList, "b.ts".toList, "c.ts".toList],
    fetchR := fun _ => Except.ok ("x".toList),
    claude := Except.ok (some claudeC4),
    jsonParse := fun t => if t = claudeC4 then some [secC4] else none }

def secOutC4 : SectionOut :=
  { title := "T".toList, content := "C".toList,
    code := some [{ filename := "a.ts".toList, language := some ("ts".toList),
                    annotations := some [{ line := 999, comment := "hi".toList }],
                    content := some ("x".toList) }] }

theorem compressLoop_eq (lines : List (List Char)) (i : Nat) :
    compressLoop lines i =
      ((lines.filter (fun l => !isBlankLine l)).map compressLine,
       ((List.enumFrom i lines).filter (fun p => !isBlankLine p.2)).map Prod.fst) := by
  induction lines generalizing i with
  | nil => rfl
  | cons l rest ih =>
    rw [compressLoop, List.enumFrom_cons]
    by_cases h : isBlankLine l
    · simp [h, ih]
    · simp [h, ih]

theorem compressLoop_snd_lt (lines : List (List Char)) (i : Nat) :
    ∀ x ∈ (compressLoop lines i).2, x < i + lines.length := by
  induction lines generalizing i with
  | nil => intro x hx; simp [compressLoop] at hx
  | cons l rest ih =>
    intro x hx
    rw [compressLoop] at hx
    by_cases h : isBlankLine l
    · rw [if_pos h] at hx
      have := ih (i + 1) x hx
      simp only [List.length_cons]
      omega
    · rw [if_neg h] at hx
      simp only [List.mem_cons] at hx
      rcases hx with rfl | hx
      · simp only [List.length_cons]; omega
      · have := ih (i + 1) x hx
        simp only [List.length_cons]
        omega

theorem lineMap_entries_lt (code : List Char) :
    ∀ x ∈ (compressCodeWithLineMapping code).2, x < (splitLines code).length := by
  intro x hx
  have := compressLoop_snd_lt (splitLines code) 0 x hx
  omega

/-- C2: compressCodeWithLineMapping returns exactly the non-blank input
lines in order, each with runs of spaces and tabs collapsed to one space
and trimmed, joined by newlines; the line map lists, in compressed-line
order, the zero-based original index of each non-blank line, one entry per
non-blank line and no others; when every line is blank the compressed text
is empty and the map has no entries. -/
theorem c2_compress_characterization (code : List Char) :
    (compressCodeWithLineMapping code).1
        = joinLines (((splitLines code).filter (fun l => !isBlankLine l)).map compressLine)
      ∧ (compressCodeWithLineMapping code).2
        = (((splitLines code).enumFrom 0).filter (fun p => !isBlankLine p.2)).map Prod.fst
      ∧ (((splitLines code).all fun l => isBlankLine l) →
          (compressCodeWithLineMapping code).1 = [] ∧ (compressCodeWithLineMapping code).2 = []) := by
  have h := compressLoop_eq (splitLines code) 0
  refine ⟨by rw [compressCodeWithLineMapping, h], by rw [compressCodeWithLineMapping, h], ?_⟩
  intro hall
  have hfilter : (splitLines code).filter (fun l => !isBlankLine l) = [] := by
    rw [List.filter_eq_nil_iff]
    intro a ha
    have := List.all_eq_true.mp hall a ha
    simp [this]
  have hfilter2 : ((splitLines code).enumFrom 0).filter (fun p => !isBlankLine p.2) = [] := by
    rw [List.filter_eq_nil_iff]
    intro a ha
    have hmem : a.2 ∈ splitLines code := by
      have : a ∈ List.enum (splitLines code) := ha
      exact List.snd_mem_of_mem_enum this
    have := List.all_eq_true.mp hall a.2 hmem
    simp [this]
  constructor
  · rw [compressCodeWithLineMapping, h]
    simp [hfilter, joinLines, List.intercalate]
  · rw [compressCodeWithLineMapping, h]
    simp [hfilter2]

/-- C1: evaluation of the annotation remapping at a failing input.  For the
source text with lines a, blank, b the compressed text has the two lines a
and b and the line map is the list 0, 2.  The first compressed line
(one-indexed line 1) is the line a, whose one-indexed original line number
is 1; the remapping of the route instead looks the one-indexed annotation
line 1 up in the zero-indexed map and returns 2 + 1 = 3. -/
theorem c1_remap_at_failing_input :
    (compressCodeWithLineMapping ("a\n\nb".toList)).1 = "a\nb".toList
      ∧ (compressCodeWithLineMapping ("a\n\nb".toList)).2 = [0, 2]
      ∧ remapLine (compressCodeWithLineMapping ("a\n\nb".toList)).2 1 = 3 := by
  decide

theorem listStartsWith_mem (l pat : List Char) (h : listStartsWith l pat = true) :
    ∀ x ∈ pat, x ∈ l := by
  induction pat generalizing l with
  | nil => intro x hx; simp at hx
  | cons p ps ih =>
    match l with
    | [] => simp [listStartsWith] at h
    | c :: cs =>
      simp only [listStartsWith, Bool.and_eq_true, decide_eq_true_eq] at h
      intro x hx
      rcases List.mem_cons.mp hx with rfl | hx
      · simp [h.1]
      · exact List.mem_cons_of_mem _ (ih cs h.2 x hx)

theorem hasSub_mem (l pat : List Char) (h : hasSub l pat = true) :
    ∀ x ∈ pat, x ∈ l := by
  induction l with
  | nil =>
    intro x hx
    rw [hasSub] at h
    rw [List.isEmpty_iff] at h
    subst h
    simp at hx
  | cons c rest ih =>
    rw [hasSub, Bool.or_eq_true] at h
    intro x hx
    rcases h with h | h
    · exact listStartsWith_mem _ _ h x hx
    · exact List.mem_cons_of_mem _ (ih h x hx)

theorem lowerChar_ne_R (c : Char) : lowerChar c ≠ 'R' := by
  unfold lowerChar
  split <;> simp_all

theorem lowerChar_ne_D (c : Char) : lowerChar c ≠ 'D' := by
  unfold lowerChar
  split <;> simp_all

/-- The uppercase pattern README never occurs in a lowercased string. -/
theorem hasSub_lower_readme_false (l : List Char) :
    hasSub (jsToLower l) ("README".toList) = false := by
  by_contra h
  rw [Bool.not_eq_false] at h
  have hR : 'R' ∈ jsToLower l := hasSub_mem _ _ h 'R' (by decide)
  rw [jsToLower, List.mem_map] at hR
  obtain ⟨c, _, hc⟩ := hR
  exact lowerChar_ne_R c hc

/-- The pattern Dockerfile with its uppercase initial never occurs in a
lowercased string. -/
theorem hasSub_lower_dockerfile_false (l : List Char) :
    hasSub (jsToLower l) ("Dockerfile".toList) = false := by
  by_contra h
  rw [Bool.not_eq_false] at h
  have hD : 'D' ∈ jsToLower l := hasSub_mem _ _ h 'D' (by decide)
  rw [jsToLower, List.mem_map] at hD
  obtain ⟨c, _, hc⟩ := hD
  exact lowerChar_ne_D c hc

/-- C8 amended: filterImportantFiles keeps, in their original order,
exactly the paths whose lowercased extension (substring from the last dot)
is one of the important code extensions and whose lowercased path contains
none of the literal exclusion patterns, the matching of patterns being case
sensitive; in particular the two patterns with uppercase letters, README
and Dockerfile, never match a lowercased path and exclude nothing. -/
theorem c8_filter_amended (files : List (List Char)) :
    (filterImportantFiles files
        = files.filter (fun file =>
            importantExtensions.contains (jsToLower (getExtension file))
            && !(excludePatterns.any (fun pat => hasSub (jsToLower file) pat))))
      ∧ ∀ file : List Char,
          hasSub (jsToLower file) ("README".toList) = false
          ∧ hasSub (jsToLower file) ("Dockerfile".toList) = false := by
  constructor
  · rw [filterImportantFiles, List.filter_filter]
    exact List.filter_congr (fun a _ => Bool.and_comm _ _)
  · intro file
    exact ⟨hasSub_lower_readme_false file, hasSub_lower_dockerfile_false file⟩

/-- C8 counterexample: the path src/README.ts has the important extension
.ts and its lowercased form contains the lowercase pattern readme, so the
claimed filter would exclude it, yet filterImportantFiles keeps it. -/
theorem c8_counterexample :
    filterImportantFiles ["src/README.ts".toList] = ["src/README.ts".toList]
      ∧ hasSub (jsToLower ("src/README.ts".toList)) ("readme".toList) = true := by
  decide

/-- C7: a request without a url, or with an empty url, answers 400 with an
error object and calls nothing; a url refused by the URL constructor, or
whose hostname does not contain github.com, or whose pathname has fewer
than two nonempty segments, makes extractRepoInfo fail, and the route
answers 500 with the Invalid GitHub URL error object, again calling
neither the repository API nor the model; for every other url,
extractRepoInfo returns the first two path segments as owner and repo. -/
theorem c7_url_validation (o : RouteOracle) :
    (POSTmodel o none
        = ({ status := 400, body := RespBody.errObj ("URL is required".toList) }, noEffects))
  ∧ (∀ url : List Char, url.isEmpty = true →
        POSTmodel o (some url)
          = ({ status := 400, body := RespBody.errObj ("URL is required".toList) }, noEffects))
  ∧ (∀ url : List Char, url.isEmpty = false → extractRepoInfo o.parseURL url = none →
        POSTmodel o (some url)
          = ({ status := 500, body := RespBody.errObj ("Invalid GitHub URL".toList) }, noEffects))
  ∧ (∀ url : List Char, o.parseURL url = none → extractRepoInfo o.parseURL url = none)
  ∧ (∀ (url : List Char) (u : URLRec), o.parseURL url = some u →
        hasSub u.hostname ("github.com".toList) = false →
        extractRepoInfo o.parseURL url = none)
  ∧ (∀ (url : List Char) (u : URLRec), o.parseURL url = some u →
        ((splitOnChar '/' u.pathname).filter (fun s => !s.isEmpty)).length < 2 →
        extractRepoInfo o.parseURL url = none)
  ∧ (∀ (url : List Char) (u : URLRec) (a b : List Char) (rest : List (List Char)),
        o.parseURL url = some u →
        hasSub u.hostname ("github.com".toList) = true →
        (splitOnChar '/' u.pathname).filter (fun s => !s.isEmpty) = a :: b :: rest →
        extractRepoInfo o.parseURL url = some (a, b)) := by
  refine ⟨rfl, ?_, ?_, ?_, ?_, ?_, ?_⟩
  · intro url h
    simp [POSTmodel, h]
  · intro url h1 h2
    simp [POSTmodel, h1, h2]
  · intro url h
    simp [extractRepoInfo, h]
  · intro url u h1 h2
    rw [extractRepoInfo]
    simp only [h1]
    rw [if_neg]
    rw [Bool.not_eq_true]
    exact h2
  · intro url u h1 h2
    rw [extractRepoInfo]
    simp only [h1]
    by_cases hh : hasSub u.hostname ("github.com".toList) = true
    · rw [if_pos hh]
      cases hxs : (splitOnChar '/' u.pathname).filter (fun s => !s.isEmpty) with
      | nil => rfl
      | cons a t =>
        cases t with
        | nil => rfl
        | cons b t2 =>
          exfalso
          rw [hxs] at h2
          simp only [List.length_cons] at h2
          omega
    · rw [if_neg hh]
  · intro url u a b rest h1 h2 h3
    rw [extractRepoInfo]
    simp only [h1]
    rw [if_pos h2, h3]

theorem c7_witness :
    POSTmodel c7oracle (some ("http://gitlab.com/o/r".toList))
        = ({ status := 500, body := RespBody.errObj ("Invalid GitHub URL".toList) }, noEffects)
  ∧ extractRepoInfo c7oracle.parseURL ("http://gitlab.com/o/r".toList) = none := by
  refine ⟨(c7_url_validation c7oracle).2.2.1 _ (by decide) (by decide), ?_⟩
  exact (c7_url_validation c7oracle).2.2.2.2.1 _ _ rfl (by decide)

/-- C6: when the filtered important-file list of the fetched tree has
fewer than three entries the route answers 400 with the error object, with
no file content fetched and no model call. -/
theorem c6_insufficient_files (o : RouteOracle) (url : List Char)
    (p : List Char × List Char) (allFiles : List (List Char))
    (h1 : url.isEmpty = false)
    (h2 : extractRepoInfo o.parseURL url = some p)
    (h3 : o.tree = some allFiles)
    (h4 : (filterImportantFiles allFiles).length < 3) :
    POSTmodel o (some url) =
      ({ status := 400,
         body := RespBody.errObj
           ("Repository must have at least 3 important code files for analysis".toList) },
       { calledTree := true, fetchedPaths := [], calledClaude := false }) := by
  simp [POSTmodel, h1, h2, h3, h4]

theorem c6_witness :
    POSTmodel c6oracle (some ("https://github.com/o/r".toList)) =
      ({ status := 400,
         body := RespBody.errObj
           ("Repository must have at least 3 important code files for analysis".toList) },
       { calledTree := true, fetchedPaths := [], calledClaude := false }) :=
  c6_insufficient_files c6oracle _ ("o".toList, "r".toList) [] (by decide) (by decide) rfl (by decide)

/-- C9: a failed content fetch yields the empty string instead of an
error, and a file of the seven fetched ones enters the valid list only
with nonempty content, so a file whose fetch failed is never among the
valid files handed to the prompt and the response processing. -/
theorem c9_fetch_failure_tolerated :
    (∀ e : List Char, getFileContent (Except.error e) = [])
  ∧ (∀ (fetchR : List Char → Except (List Char) (List Char))
       (importantFiles : List (List Char)) (f : FileRec),
        f ∈ buildValidFiles fetchR importantFiles →
          f.content ≠ [] ∧ ∀ e : List Char, fetchR f.path ≠ Except.error e) := by
  refine ⟨fun e => rfl, ?_⟩
  intro fetchR importantFiles f hf
  rw [buildValidFiles, List.mem_filter] at hf
  obtain ⟨hmem, hne⟩ := hf
  rw [List.mem_map] at hmem
  obtain ⟨p, _, rfl⟩ := hmem
  have hne2 : (!(getFileContent (fetchR p)).isEmpty) = true := hne
  constructor
  · intro hcon
    have hc2 : getFileContent (fetchR p) = [] := hcon
    rw [hc2] at hne2
    simp at hne2
  · intro e hcon
    have hc3 : fetchR p = Except.error e := hcon
    rw [hc3] at hne2
    simp [getFileContent] at hne2

theorem c9_witness :
    (mkFileRec ("b.ts".toList) ("x".toList)).content ≠ []
  ∧ ∀ e : List Char,
      c9fetch ((mkFileRec ("b.ts".toList) ("x".toList)).path) ≠ Except.error e :=
  c9_fetch_failure_tolerated.2 c9fetch ["a.ts".toList, "b.ts".toList] _ (by decide)

/-- C3 amended: when the trimmed model text does not parse and the bracket
substring extraction also yields nothing parseable, the route answers 200
with the single Parsing Error section array, not an error object and not
an error status. -/
theorem c3_parse_fallback_amended (jsonParse : List Char → Option (List SectionIn))
    (validFiles : List FileRec) (text : List Char)
    (h1 : jsonParse (jsTrim text) = none)
    (h2 : (extractJsonRange (jsTrim text)).bind jsonParse = none) :
    parseStage jsonParse validFiles text =
      { status := 200, body := RespBody.sections parsingErrorSections } := by
  rw [parseStage]
  simp only [h1]
  cases hr : extractJsonRange (jsTrim text) with
  | none => rfl
  | some sub =>
    rw [hr] at h2
    have h3 : jsonParse sub = none := h2
    simp [h3]

theorem c3_witness :
    parseStage (fun _ => none) [] ("hello".toList)
      = { status := 200, body := RespBody.sections parsingErrorSections } :=
  c3_parse_fallback_amended (fun _ => none) [] ("hello".toList) rfl rfl

/-- C3 counterexample: a full run in which the model text hello fails both
the direct parse and the bracket extraction; the route answers status 200
with the Parsing Error section array, not an error object with an error
status as claimed. -/
theorem c3_counterexample :
    (POSTmodel c3oracle (some ("https://github.com/o/r".toList))).1.status = 200
  ∧ (POSTmodel c3oracle (some ("https://github.com/o/r".toList))).1.body.isErr = false
  ∧ (POSTmodel c3oracle (some ("https://github.com/o/r".toList))).1.body
      = RespBody.sections parsingErrorSections := by
  decide

/-- C10: analyzeDocumentation is a constant function of its url: any two
calls return the same single section, titled Documentation Analysis
Unavailable, with no code attached. -/
theorem c10_docs_disabled (u v : List Char) :
    analyzeDocumentation u = analyzeDocumentation v
  ∧ analyzeDocumentation u
      = [{ title := "Documentation Analysis Unavailable".toList,
           content := ("The documentation analysis feature has been disabled in this version. Please use GitHub repository analysis instead.".toList),
           code := none }]
  ∧ (analyzeDocumentation u).length = 1 := ⟨rfl, rfl, rfl⟩

theorem sumTokens_nil : sumTokens [] = 0 := rfl

theorem sumTokens_cons (f : FileRec) (l : List FileRec) :
    sumTokens (f :: l) = countTokens f.compressed + sumTokens l := by
  simp [sumTokens]

theorem sumTokens_append (a b : List FileRec) :
    sumTokens (a ++ b) = sumTokens a + sumTokens b := by
  simp [sumTokens]

theorem insertDesc_length (f : FileRec) (l : List FileRec) :
    (insertDesc f l).length = l.length + 1 := by
  induction l with
  | nil => rfl
  | cons g rest ih =>
    rw [insertDesc]
    split
    · simp
    · simp [ih]

theorem sortByTokensDesc_length (l : List FileRec) :
    (sortByTokensDesc l).length = l.length := by
  induction l with
  | nil => rfl
  | cons f rest ih => rw [sortByTokensDesc, insertDesc_length, ih, List.length_cons]

theorem insertDesc_sumTokens (f : FileRec) (l : List FileRec) :
    sumTokens (insertDesc f l) = countTokens f.compressed + sumTokens l := by
  induction l with
  | nil => simp [insertDesc, sumTokens]
  | cons g rest ih =>
    rw [insertDesc]
    split
    · rw [sumTokens_cons, sumTokens_cons]
    · rw [sumTokens_cons, ih, sumTokens_cons]
      omega

theorem sortByTokensDesc_sumTokens (l : List FileRec) :
    sumTokens (sortByTokensDesc l) = sumTokens l := by
  induction l with
  | nil => rfl
  | cons f rest ih =>
    rw [sortByTokensDesc, insertDesc_sumTokens, ih, sumTokens_cons]

theorem budgetLoop_spec : ∀ (n : Nat) (files : List FileRec) (total : Nat),
    files.length ≤ n → total = sumTokens files →
    (budgetLoop files total).2 = sumTokens (budgetLoop files total).1
    ∧ ((budgetLoop files total).2 ≤ MAX_AVAILABLE_TOKENS
        ∨ (budgetLoop files total).1.length = min 3 files.length)
    ∧ (budgetLoop files total).1.length ≤ files.length := by
  intro n
  induction n with
  | zero =>
    intro files total hlen hinv
    have hf : files = [] := List.eq_nil_of_length_eq_zero (Nat.le_zero.mp hlen)
    subst hf
    rw [budgetLoop, dif_neg (by simp)]
    exact ⟨hinv, Or.inr (by simp), Nat.le_refl _⟩
  | succ n ih =>
    intro files total hlen hinv
    by_cases hc : MAX_AVAILABLE_TOKENS < total ∧ 3 < files.length
    · have hne : files ≠ [] := by
        intro h
        rw [h] at hc
        simp at hc
      have hstep : budgetLoop files total
          = budgetLoop files.dropLast (total - countTokens (files.getLast hne).compressed) := by
        rw [budgetLoop, dif_pos hc, List.getLast?_eq_getLast files hne]
      have hsplit : files.dropLast ++ [files.getLast hne] = files :=
        List.dropLast_append_getLast hne
      have hinv2 : total - countTokens (files.getLast hne).compressed
          = sumTokens files.dropLast := by
        have hap := sumTokens_append files.dropLast [files.getLast hne]
        rw [hsplit] at hap
        rw [sumTokens_cons, sumTokens_nil] at hap
        omega
      have hlen2 : files.dropLast.length ≤ n := by
        rw [List.length_dropLast]
        omega
      obtain ⟨ha, hb, hcc⟩ := ih files.dropLast _ hlen2 hinv2
      rw [hstep]
      refine ⟨ha, ?_, ?_⟩
      · rcases hb with hb | hb
        · exact Or.inl hb
        · refine Or.inr ?_
          rw [hb, List.length_dropLast]
          have h4 : 3 < files.length := hc.2
          omega
      · refine Nat.le_trans hcc ?_
        rw [List.length_dropLast]
        omega
    · have hstep : budgetLoop files total = (files, total) := by
        rw [budgetLoop, dif_neg hc]
      rw [hstep]
      refine ⟨hinv, ?_, Nat.le_refl _⟩
      by_cases ht : total ≤ MAX_AVAILABLE_TOKENS
      · exact Or.inl ht
      · refine Or.inr ?_
        have h3 : ¬ 3 < files.length := by
          intro hgt
          exact hc ⟨Nat.lt_of_not_le ht, hgt⟩
        show files.length = min 3 files.length
        omega

theorem budgetFiles_spec (validFiles : List FileRec) :
    (budgetFiles validFiles).2 = sumTokens (budgetFiles validFiles).1
  ∧ (sumTokens (budgetFiles validFiles).1 ≤ MAX_AVAILABLE_TOKENS
      ∨ (budgetFiles validFiles).1.length = min 3 validFiles.length)
  ∧ (budgetFiles validFiles).1.length ≤ validFiles.length := by
  unfold budgetFiles
  by_cases hc : MAX_AVAILABLE_TOKENS < sumTokens validFiles
  · rw [if_pos hc]
    have hinv : sumTokens validFiles = sumTokens (sortByTokensDesc validFiles) :=
      (sortByTokensDesc_sumTokens validFiles).symm
    obtain ⟨ha, hb, hcc⟩ :=
      budgetLoop_spec (sortByTokensDesc validFiles).length (sortByTokensDesc validFiles)
        (sumTokens validFiles) (Nat.le_refl _) hinv
    refine ⟨ha, ?_, ?_⟩
    · rcases hb with hb | hb
      · exact Or.inl (by rw [← ha]; exact hb)
      · exact Or.inr (by rw [hb, sortByTokensDesc_length])
    · exact Nat.le_trans hcc (by rw [sortByTokensDesc_length])
  · rw [if_neg hc]
    refine ⟨rfl, Or.inl (Nat.le_of_not_lt hc), Nat.le_refl _⟩

theorem buildValidFiles_length_le (fetchR : List Char → Except (List Char) (List Char))
    (importantFiles : List (List Char)) :
    (buildValidFiles fetchR importantFiles).length ≤ 7 := by
  rw [buildValidFiles]
  refine Nat.le_trans (List.length_filter_le _ _) ?_
  rw [List.length_map]
  exact List.length_take_le _ _

/-- C5 amended: after the budgeting step the files kept for the prompt
either have a compressed token sum of at most 180000 (the 200000 limit
minus the 20000 buffer) or are exactly min 3 n many, where n is the number
of valid files entering the step (so exactly three whenever at least three
valid files entered, but fewer when fewer than three files survived the
empty-content filter); and never more than seven files are kept. -/
theorem c5_token_budget_amended (fetchR : List Char → Except (List Char) (List Char))
    (importantFiles : List (List Char)) :
    (sumTokens (budgetFiles (buildValidFiles fetchR importantFiles)).1 ≤ 180000
      ∨ (budgetFiles (buildValidFiles fetchR importantFiles)).1.length
          = min 3 (buildValidFiles fetchR importantFiles).length)
  ∧ (budgetFiles (buildValidFiles fetchR importantFiles)).1.length ≤ 7 := by
  have h := budgetFiles_spec (buildValidFiles fetchR importantFiles)
  refine ⟨?_, ?_⟩
  · have h2 := h.2.1
    rw [show MAX_AVAILABLE_TOKENS = 180000 from rfl] at h2
    exact h2
  · exact Nat.le_trans h.2.2 (buildValidFiles_length_le fetchR importantFiles)

theorem splitOnChar_of_not_mem (sep : Char) (l : List Char) (h : sep ∉ l) :
    splitOnChar sep l = [l] := by
  induction l with
  | nil => rfl
  | cons c rest ih =>
    have hcs : ¬(c = sep) := by
      intro hc
      exact h (by rw [hc]; exact List.mem_cons_self _ _)
    have hrest : sep ∉ rest := fun hm => h (List.mem_cons_of_mem c hm)
    rw [splitOnChar, if_neg hcs, ih hrest]

theorem collapseWsAux_of_no_ws (b : Bool) (l : List Char)
    (h : ∀ c ∈ l, isSpaceTab c = false) : collapseWsAux b l = l := by
  induction l generalizing b with
  | nil => rfl
  | cons c rest ih =>
    rw [collapseWsAux, if_neg (by simp [h c (List.mem_cons_self c rest)])]
    rw [ih false (fun d hd => h d (List.mem_cons_of_mem c hd))]

theorem dropWhile_all_false (p : Char → Bool) (l : List Char)
    (h : ∀ c ∈ l, p c = false) : l.dropWhile p = l := by
  cases l with
  | nil => rfl
  | cons c rest =>
    rw [List.dropWhile_cons, if_neg (by simp [h c (List.mem_cons_self c rest)])]

theorem jsTrim_of_no_ws (l : List Char) (h : ∀ c ∈ l, isJsWs c = false) :
    jsTrim l = l := by
  rw [jsTrim, dropWhile_all_false _ _ h,
      dropWhile_all_false _ _ (fun c hc => h c (List.mem_reverse.mp hc)),
      List.reverse_reverse]

theorem joinLines_singleton (l : List Char) : joinLines [l] = l := by
  simp [joinLines, List.intercalate]

theorem compress_replicate (n : Nat) (hn : n ≠ 0) :
    compressCodeWithLineMapping (List.replicate n 'a') = (List.replicate n 'a', [0]) := by
  have hnl : '\n' ∉ List.replicate n 'a' := by
    intro hm
    have := List.eq_of_mem_replicate hm
    simp at this
  have hsplit : splitLines (List.replicate n 'a') = [List.replicate n 'a'] :=
    splitOnChar_of_not_mem _ _ hnl
  have hnws : ∀ c ∈ List.replicate n 'a', isJsWs c = false := by
    intro c hc
    rw [List.eq_of_mem_replicate hc]
    rfl
  have hnst : ∀ c ∈ List.replicate n 'a', isSpaceTab c = false := by
    intro c hc
    rw [List.eq_of_mem_replicate hc]
    rfl
  have htrim : jsTrim (List.replicate n 'a') = List.replicate n 'a' :=
    jsTrim_of_no_ws _ hnws
  have hblank : isBlankLine (List.replicate n 'a') = false := by
    rw [isBlankLine, htrim]
    cases n with
    | zero => exact absurd rfl hn
    | succ m => simp [List.replicate_succ]
  have hcl : compressLine (List.replicate n 'a') = List.replicate n 'a' := by
    rw [compressLine, collapseWs, collapseWsAux_of_no_ws false _ hnst, htrim]
  rw [compressCodeWithLineMapping]
  simp only [hsplit, compressLoop, hblank, Bool.false_eq_true, if_neg, hcl]
  simp [joinLines_singleton]

theorem mkFileRec_c5 : mkFileRec ("a.ts".toList) (List.replicate 720004 'a') = fileC5 := by
  unfold mkFileRec fileC5
  rw [compress_replicate 720004 (by norm_num)]

/-- C5 counterexample: the tree with the three files a.ts, b.ts, c.ts
passes the three-file guard, but the fetches of b.ts and c.ts fail, so
only a.ts, whose compressed content holds 720004 characters and hence
180001 estimated tokens, survives the empty-content filter.  At the end of
the budgeting step the kept files sum to 180001 tokens, above the 180000
limit, and one file remains, not three. -/
theorem c5_counterexample :
    (filterImportantFiles treeC5).length = 3
  ∧ buildValidFiles fetchC5 (filterImportantFiles treeC5) = [fileC5]
  ∧ ¬(sumTokens (budgetFiles [fileC5]).1 ≤ 180000
        ∨ (budgetFiles [fileC5]).1.length = 3) := by
  have hft : filterImportantFiles treeC5 = treeC5 := by decide
  have hf1 : getFileContent (fetchC5 ("a.ts".toList)) = List.replicate 720004 'a' := rfl
  have hf2 : getFileContent (fetchC5 ("b.ts".toList)) = [] := rfl
  have hf3 : getFileContent (fetchC5 ("c.ts".toList)) = [] := rfl
  have hbuild : buildValidFiles fetchC5 (filterImportantFiles treeC5) = [fileC5] := by
    rw [hft]
    rw [buildValidFiles]
    rw [show treeC5.take 7 = treeC5 from rfl]
    rw [show treeC5 = ["a.ts".toList, "b.ts".toList, "c.ts".toList] from rfl]
    rw [List.map_cons, List.map_cons, List.map_cons, List.map_nil]
    rw [hf1, hf2, hf3, mkFileRec_c5]
    have hemp : fileC5.content.isEmpty = false := by
      rw [List.isEmpty_eq_false]
      show List.replicate 720004 'a' ≠ []
      intro hcon
      have := congrArg List.length hcon
      rw [List.length_replicate] at this
      simp at this
    rw [List.filter_cons_of_pos (by rw [hemp]; rfl)]
    rw [List.filter_cons_of_neg (by simp [mkFileRec])]
    rw [List.filter_cons_of_neg (by simp [mkFileRec])]
    rfl
  have hsum : sumTokens [fileC5] = 180001 := by
    rw [sumTokens_cons, sumTokens_nil]
    have hct : countTokens fileC5.compressed = 180001 := by
      rw [show fileC5.compressed = List.replicate 720004 'a' from rfl]
      rw [countTokens, List.length_replicate]
    rw [hct]
  have hbudget : budgetFiles [fileC5] = ([fileC5], 180001) := by
    unfold budgetFiles
    rw [hsum]
    rw [if_pos (by norm_num [MAX_AVAILABLE_TOKENS])]
    rw [show sortByTokensDesc [fileC5] = [fileC5] from rfl]
    rw [budgetLoop, dif_neg (by simp)]
  refine ⟨by rw [hft]; rfl, hbuild, ?_⟩
  rw [hbudget]
  intro hcon
  rcases hcon with hcon | hcon
  · have hc2 : sumTokens [fileC5] ≤ 180000 := hcon
    rw [hsum] at hc2
    omega
  · simp at hcon

/-- C4 amended: in the processed response, for a code item matched to a
fetched file, the attached content is that file content and the
annotations are the remapped ones; every annotation whose model-given line
number has an entry in the line map is remapped to a line between 1 and
the line count of the original content.  An annotation whose line has no
entry keeps the model-given number, which may lie outside the file. -/
theorem c4_annotation_bounds_amended (validFiles : List FileRec)
    (hlm : ∀ f ∈ validFiles, f.lineMap = (compressCodeWithLineMapping f.content).2)
    (ci : CodeItemIn) (f : FileRec)
    (hf : findMatchingFile validFiles ci.filename = some f)
    (anns : List Annot) (ha : ci.annotations = some anns) :
    (processCodeItem validFiles ci).content = some f.content
  ∧ (processCodeItem validFiles ci).annotations = some (remapAnnots f.lineMap anns)
  ∧ ∀ a ∈ anns, ∀ o : Nat, f.lineMap.get? a.line = some o →
      1 ≤ remapLine f.lineMap a.line
      ∧ remapLine f.lineMap a.line ≤ (splitLines f.content).length := by
  have hmem : f ∈ validFiles := List.mem_of_find?_eq_some hf
  have hcontent : (processCodeItem validFiles ci).content = some f.content := by
    rw [processCodeItem, hf]
  have hanns : (processCodeItem validFiles ci).annotations
      = some (remapAnnots f.lineMap anns) := by
    rw [processCodeItem, hf]
    simp [ha]
  refine ⟨hcontent, hanns, ?_⟩
  intro a _ o ho
  have holt : o < (splitLines f.content).length := by
    have hall := lineMap_entries_lt f.content
    rw [← hlm f hmem] at hall
    exact hall o (List.get?_mem ho)
  have hr : remapLine f.lineMap a.line = o + 1 := by
    rw [remapLine, ho]
  rw [hr]
  omega

theorem c4_witness :
    (processCodeItem [fileC4w] ciC4w).content = some fileC4w.content
  ∧ (processCodeItem [fileC4w] ciC4w).annotations
      = some (remapAnnots fileC4w.lineMap [{ line := 0, comment := "c".toList }])
  ∧ ∀ a ∈ [({ line := 0, comment := "c".toList } : Annot)], ∀ o : Nat,
      fileC4w.lineMap.get? a.line = some o →
        1 ≤ remapLine fileC4w.lineMap a.line
        ∧ remapLine fileC4w.lineMap a.line ≤ (splitLines fileC4w.content).length :=
  c4_annotation_bounds_amended [fileC4w] (by decide) ciC4w fileC4w (by decide)
    [{ line := 0, comment := "c".toList }] rfl

/-- C4 counterexample: a successful run in which the model text is the
JSON array annotating line 999 of the one-line file a.ts.  The line map of
the file has no entry 999, so the remapping keeps 999, and the 200
response carries an annotation whose line number 999 exceeds the one-line
bound of the content attached beside it. -/
theorem c4_counterexample :
    (POSTmodel c4oracle (some ("https://github.com/o/r".toList))).1
        = { status := 200, body := RespBody.sections [secOutC4] }
  ∧ (splitLines ("x".toList)).length = 1
  ∧ ¬(999 ≤ 1) := by
  decide
